/-
Verification of the file_sync coordinator against its specification.

Shallow embedding of the Python sources:
  src/shared/models.py        (VectorClockModel, FileMetadata, FileDelta, ...)
  src/shared/utils.py         (rolling_hash, find_chunk_boundaries)
  src/coordinator/server.py   (AdvancedDeltaSync, SimpleFileManager,
                               EnhancedVectorClockManager, upload/delete/propagate)
  src/coordinator/delta_sync.py (DeltaSync: generate_delta, apply_delta, optimize_delta)
  src/coordinator/file_manager.py (FileVersionManager)

Conventions used throughout:
  * Python `bytes` are `List Nat` (each entry one byte value).
  * Python `dict` values are association lists; `dict.get(k, 0)` is
    `(lookup k).getD 0`; dict insertion updates the first matching key.
  * `hashlib.sha256(...).hexdigest()` is an abstract function parameter
    `H : List Nat → String`: every theorem below depends only on the fact
    that it is a function (equal inputs give equal digests), never on any
    other property of SHA-256.
  * Python's builtin `hash` on bytes (used by utils.rolling_hash for windows
    shorter than the window size) is process-seeded and therefore abstract:
    parameter `pyH : List Nat → Int`.
  * Python floats that the claims mention (`compression_ratio`) are modelled
    as exact rationals; the proved statements only evaluate them at points
    where the IEEE value is exact (ratio of equal numbers times 100).
-/
import Mathlib

namespace FileSync

/-! ### VectorClockModel (src/shared/models.py, class VectorClockModel)

`clocks: Dict[str, int]` is an association list from node id to clock value.
-/

structure VectorClockModel where
  clocks : List (String × Int)
deriving Repr, DecidableEq

namespace VectorClockModel

/-- Embeds `self.clocks.get(node_id, 0)` -/
def get (c : VectorClockModel) (k : String) : Int :=
  (c.clocks.lookup k).getD 0

/-- the key set of a clock, as the list of keys -/
def keys (c : VectorClockModel) : List String :=
  c.clocks.map Prod.fst

/-- Embeds `all_nodes = set(self.clocks.keys()) | set(other.clocks.keys())` —
iteration over a set is modelled by the concatenated key list (duplicates
cannot change the outcome of the existential flags computed from it). -/
def allNodes (a b : VectorClockModel) : List String :=
  keys a ++ keys b

/-- Embeds `VectorClockModel.compare` (models.py lines 58-81): one pass over the
union of the key sets computes the two flags `self_greater` / `other_greater`,
then the four-way branch. -/
def compare (a b : VectorClockModel) : String :=
  let self_greater := (allNodes a b).any fun node_id => get a node_id > get b node_id
  let other_greater := (allNodes a b).any fun node_id => get b node_id > get a node_id
  if self_greater && !other_greater then "after"
  else if other_greater && !self_greater then "before"
  else if !self_greater && !other_greater then "equal"
  else "concurrent"

/-- Embeds `increment` (models.py lines 42-44): `clocks[node_id] = get(node_id,0)+1`,
updating the entry in place (first occurrence) or appending a new one. -/
def setClock : List (String × Int) → String → Int → List (String × Int)
  | [], k, v => [(k, v)]
  | (k', v') :: rest, k, v =>
      if k' = k then (k, v) :: rest else (k', v') :: setClock rest k v

def increment (c : VectorClockModel) (node_id : String) : VectorClockModel :=
  ⟨setClock c.clocks node_id (get c node_id + 1)⟩

end VectorClockModel

/-- The strict-domination flag of `compare`, as a proposition: some key of
either clock has a strictly greater value in `a` than in `b`. -/
def vcGT (a b : VectorClockModel) : Prop :=
  ∃ k ∈ VectorClockModel.allNodes a b, VectorClockModel.get a k > VectorClockModel.get b k

instance (a b : VectorClockModel) : Decidable (vcGT a b) := by
  unfold vcGT; infer_instance

/-! ### AdvancedDeltaSync (src/coordinator/server.py, lines 158-305)

`CHUNK_SIZE = 4096`.  `bytes` slicing `data[i:i+CHUNK_SIZE]` for `i` in steps
of `CHUNK_SIZE` is `chunksOf 4096`.

Important source fact: `server.py` never imports `FileChunk` from
`shared.models`, so the `FileChunk(...)` constructor call at server.py line
240 (the "new or modified chunk" branch of `create_content_delta`) raises
`NameError` at run time.  The embedding is therefore `Except`-valued, with
the error on exactly that branch; every branch that does complete is
translated faithfully.
-/

/-- Embeds `data[i:i+cs]` blocks for `i = 0, cs, 2*cs, ...` (tail block may be
shorter, never empty). `acc` holds the current block reversed, `k` counts the
bytes still missing from it. -/
def chunkGo (cs : Nat) : List Nat → List Nat → Nat → List (List Nat)
  | [], acc, _ => if acc.isEmpty then [] else [acc.reverse]
  | x :: xs, acc, 0 => acc.reverse :: chunkGo cs xs [x] (cs - 1)
  | x :: xs, acc, k + 1 => chunkGo cs xs (x :: acc) k

def chunksOf (cs : Nat) : List Nat → List (List Nat)
  | [] => []
  | x :: xs => chunkGo cs xs [x] (cs - 1)

/-- Embeds `AdvancedDeltaSync.calculate_rolling_hash` (server.py lines 166-176):
Adler-32-style pair over the whole chunk, `(b << 16) | a`. -/
def calculate_rolling_hash (data : List Nat) : Nat :=
  let p := data.foldl
    (fun (ab : Nat × Nat) d =>
      let a := (ab.1 + d) % 65521
      (a, (ab.2 + a) % 65521))
    (1, 0)
  (p.2 <<< 16) ||| p.1

/-- Embeds `shared.models.ChunkSignature` -/
structure ChunkSignature where
  index : Nat
  offset : Nat
  size : Nat
  weak_hash : Nat
  strong_hash : String
deriving Repr, DecidableEq

/-- Embeds `shared.models.FileChunk` (data always held as bytes; the pydantic
validator normalises str input to bytes before storage). -/
structure FileChunk where
  index : Nat
  offset : Nat
  size : Nat
  hash : String
  weak_hash : Nat
  data : List Nat
  is_new : Bool
deriving Repr, DecidableEq

/-- Embeds `shared.models.FileDelta`.  `compression_ratio` is a float in the
source; it is modelled as an exact rational (see the header comment). -/
structure FileDelta where
  file_id : String
  old_hash : Option String
  new_hash : String
  old_size : Nat
  new_size : Nat
  chunks_to_add : List FileChunk
  chunks_to_remove : List Nat
  chunks_unchanged : List Nat
  total_chunks : Nat
  bandwidth_saved : Nat
  compression_ratio : ℚ
deriving Repr, DecidableEq

/-- Embeds `AdvancedDeltaSync.create_signature` (server.py lines 183-206): one
signature per `CHUNK_SIZE` block; `offset` steps by `CHUNK_SIZE`.  The
`chunk_cache` writes have no effect on the returned list and are omitted. -/
def create_signature (H : List Nat → String) (data : List Nat) : List ChunkSignature :=
  (chunksOf 4096 data).enum.map fun p =>
    { index := p.1
      offset := p.1 * 4096
      size := p.2.length
      weak_hash := calculate_rolling_hash p.2
      strong_hash := H p.2 }

/-- The per-chunk loop of `create_content_delta` (server.py lines 224-251).
Returns `(unchanged_chunks, chunks_to_add, bandwidth_saved)`.  The `else`
branch of the source constructs `FileChunk(...)`, a name `server.py` never
imports: reaching it raises `NameError`, hence the `Except.error`. -/
def contentScan (oldKeys : List String) (H : List Nat → String) :
    Nat → List (List Nat) → Except String (List Nat × List FileChunk × Nat)
  | _, [] => .ok ([], [], 0)
  | idx, c :: rest =>
      if oldKeys.contains (H c) then
        match contentScan oldKeys H (idx + 1) rest with
        | .ok (u, adds, bw) => .ok (idx :: u, adds, c.length + bw)
        | .error e => .error e
      else
        .error "NameError: name FileChunk is not defined"

/-- Embeds `AdvancedDeltaSync.create_content_delta` (server.py lines 208-270).
`old_sig_map = {sig.strong_hash: sig for sig in old_signatures}`; only key
membership is consulted. -/
def create_content_delta (H : List Nat → String) (old_content new_content : List Nat)
    (file_id : String) : Except String FileDelta :=
  let old_signatures := if old_content = [] then [] else create_signature H old_content
  let oldKeys := old_signatures.map (·.strong_hash)
  match contentScan oldKeys H 0 (chunksOf 4096 new_content) with
  | .error e => .error e
  | .ok (unchanged, adds, bw) =>
      .ok { file_id := file_id
            old_hash := if old_content = [] then none else some (H old_content)
            new_hash := H new_content
            old_size := old_content.length
            new_size := new_content.length
            chunks_to_add := adds
            chunks_to_remove := []
            chunks_unchanged := unchanged
            total_chunks := (chunksOf 4096 new_content).length
            bandwidth_saved := bw
            compression_ratio :=
              if new_content = [] then 0
              else (bw : ℚ) / (new_content.length : ℚ) * 100 }

/-- Embeds `AdvancedDeltaSync.apply_delta` (server.py lines 272-287): concatenates
the `chunks_to_add` data only; `old_content` and the unchanged-chunk indices
are never consulted.  (The `str` branches of the source handle
JSON-deserialised deltas; chunk data is bytes here.) -/
def apply_delta (old_content : List Nat) (delta : FileDelta) : List Nat :=
  delta.chunks_to_add.foldl (fun acc c => acc ++ c.data) []

/-- concrete stand-in for a SHA-256 hex digest in closed evaluations; the
evaluated code paths compare digests of equal byte strings only, on which any
function behaves like SHA-256 -/
def hashStub : List Nat → String := fun _ => "h"

/-- stand-in for Python's process-seeded builtin `hash` -/
def pyHashStub : List Nat → Int := fun _ => 0

/-! ### DeltaSync (src/coordinator/delta_sync.py) and its helpers from
src/shared/utils.py.

`DeltaSync(chunk_size)` has `window_size = min(64, chunk_size // 4)`.
-/

namespace DeltaSync

/-- Embeds `shared.utils.rolling_hash` (utils.py lines 102-111).  For data shorter
than the window the source returns Python's builtin `hash(data)`, which is
process-seeded: that case is the abstract parameter `pyH`. -/
def rolling_hash (pyH : List Nat → Int) (data : List Nat) (window_size : Nat) : Int :=
  if data.length < window_size then pyH data
  else ((data.take window_size).foldl (fun h b => (h * 31 + b) % 4294967296) 0 : Nat)

/-- Embeds `shared.utils.find_chunk_boundaries` (utils.py lines 114-134).
`range(window_size, len(content) - window_size)` is
`List.range' window_size (len - 2*window_size)` (empty when the bound is not
positive, exactly as in Python). -/
def find_chunk_boundaries (pyH : List Nat → Int) (content : List Nat)
    (avg_chunk_size : Nat) : List Nat :=
  if content.length ≤ avg_chunk_size then [content.length]
  else
    let window_size := min 64 (avg_chunk_size / 4)
    let boundaries :=
      (List.range' window_size (content.length - window_size - window_size)).filter
        fun i =>
          rolling_hash pyH ((content.drop (i - window_size)).take window_size) window_size
            % (avg_chunk_size : Int) = 0
    if boundaries.getLast? = some content.length then boundaries
    else boundaries ++ [content.length]

/-- Embeds `delta_sync.ChunkSignature` (the dataclass of delta_sync.py; distinct
from the pydantic model of shared/models.py). -/
structure ChunkSignature where
  index : Nat
  offset : Nat
  size : Nat
  weak_hash : Int
  strong_hash : String
deriving Repr, DecidableEq

/-- Embeds `delta_sync.DeltaOperation`: `operation ∈ {"add", "copy", "delete"}`. -/
structure DeltaOperation where
  operation : String
  offset : Nat
  size : Nat
  data : Option (List Nat) := none
  source_offset : Option Nat := none
deriving Repr, DecidableEq

/-- the boundary loop of `DeltaSync.create_signature` (delta_sync.py lines
77-97): slice `content[offset:boundary]`, stop on an empty slice. -/
def sigGo (H : List Nat → String) (pyH : List Nat → Int) (window_size : Nat)
    (content : List Nat) : List Nat → Nat → Nat → List ChunkSignature
  | [], _, _ => []
  | boundary :: rest, offset, i =>
      let chunk_data := (content.drop offset).take (boundary - offset)
      if chunk_data = [] then []
      else
        { index := i
          offset := offset
          size := chunk_data.length
          weak_hash := rolling_hash pyH chunk_data window_size
          strong_hash := H chunk_data }
          :: sigGo H pyH window_size content rest boundary (i + 1)

/-- Embeds `DeltaSync.create_signature` (delta_sync.py lines 64-99). -/
def create_signature (H : List Nat → String) (pyH : List Nat → Int)
    (chunk_size : Nat) (content : List Nat) : List ChunkSignature :=
  if content = [] then []
  else
    sigGo H pyH (min 64 (chunk_size / 4)) content
      (find_chunk_boundaries pyH content chunk_size) 0 0

/-- the boundary loop of `DeltaSync.generate_delta` (delta_sync.py lines
152-183). -/
def genGo (H : List Nat → String) (old_sig_map : List (String × ChunkSignature))
    (new_content : List Nat) : List Nat → Nat → List DeltaOperation
  | [], _ => []
  | boundary :: rest, new_offset =>
      let new_chunk := (new_content.drop new_offset).take (boundary - new_offset)
      if new_chunk = [] then []
      else
        match old_sig_map.lookup (H new_chunk) with
        | some old_sig =>
            { operation := "copy", offset := new_offset, size := new_chunk.length,
              source_offset := some old_sig.offset }
              :: genGo H old_sig_map new_content rest boundary
        | none =>
            { operation := "add", offset := new_offset, size := new_chunk.length,
              data := some new_chunk }
              :: genGo H old_sig_map new_content rest boundary

/-- Embeds `DeltaSync.generate_delta` (delta_sync.py lines 119-183).  The dict
comprehension `{sig.strong_hash: sig for sig in old_signatures}` keeps the
last signature for a duplicated hash, hence the `reverse` before the
first-match `lookup`. -/
def generate_delta (H : List Nat → String) (pyH : List Nat → Int) (chunk_size : Nat)
    (old_content new_content : List Nat) : List DeltaOperation :=
  if old_content = [] then
    [{ operation := "add", offset := 0, size := new_content.length,
       data := some new_content }]
  else if new_content = [] then
    [{ operation := "delete", offset := 0, size := old_content.length }]
  else
    let old_signatures := create_signature H pyH chunk_size old_content
    let old_sig_map := (old_signatures.map fun s => (s.strong_hash, s)).reverse
    genGo H old_sig_map new_content (find_chunk_boundaries pyH new_content chunk_size) 0

/-- Embeds `DeltaSync.apply_delta` (delta_sync.py lines 185-209):
`b""` chunk data is falsy and skipped; copy slices `old[so:so+size]`;
delete contributes nothing. -/
def apply_delta (old_content : List Nat) (delta_ops : List DeltaOperation) : List Nat :=
  delta_ops.foldl
    (fun result op =>
      if op.operation = "add" then
        match op.data with
        | some d => if d = [] then result else result ++ d
        | none => result
      else if op.operation = "copy" then
        match op.source_offset with
        | some so =>
            if old_content = [] then result
            else result ++ ((old_content.drop so).take op.size)
        | none => result
      else result)
    []

/-- the merge loop of `DeltaSync.optimize_delta` (delta_sync.py lines
243-265): `current_op` is the accumulator; two adjacent adds whose byte
ranges abut are fused (`data or b""` on both sides). -/
def optGo : DeltaOperation → List DeltaOperation → List DeltaOperation
  | current_op, [] => [current_op]
  | current_op, next_op :: rest =>
      if current_op.operation = "add" ∧ next_op.operation = "add" ∧
          current_op.offset + current_op.size = next_op.offset then
        optGo
          { operation := "add"
            offset := current_op.offset
            size := current_op.size + next_op.size
            data := some (current_op.data.getD [] ++ next_op.data.getD []) }
          rest
      else current_op :: optGo next_op rest

/-- Embeds `DeltaSync.optimize_delta` (delta_sync.py lines 230-265). -/
def optimize_delta : List DeltaOperation → List DeltaOperation
  | [] => []
  | op :: rest => optGo op rest

/-- bytes contributed by one operation in `apply_delta`'s loop -/
def opChunk (old_content : List Nat) (op : DeltaOperation) : List Nat :=
  if op.operation = "add" then
    match op.data with
    | some d => d
    | none => []
  else if op.operation = "copy" then
    match op.source_offset with
    | some so => if old_content = [] then [] else (old_content.drop so).take op.size
    | none => []
  else []

end DeltaSync

/-! ### FileVersionManager (src/coordinator/file_manager.py)

The version store is a set of metadata records keyed by `version_id`
(one `.json` file per version under `metadata/`) plus the content bytes
(one `.data` file per version).  `generate_unique_id` (a timestamp + random
suffix) is modelled by a fresh counter `next_id`.  `get_file_versions` globs
the metadata directory and sorts by `version_number` with Python's stable
sort, modelled by a stable insertion sort over the store in creation order
(no property proved below depends on the glob order).  Datetime fields and
the vector clock are irrelevant to the claims about version numbering and
are omitted from the record.
-/

namespace FileVersionManager

structure FileVersion where
  version_id : Nat
  file_id : String
  version_number : Nat
  hash : String
  size : Nat
  created_by : String
  is_current : Bool
deriving Repr, DecidableEq

structure ManagerState where
  versions : List FileVersion
  contents : List (Nat × List Nat)
  next_id : Nat
deriving Repr, DecidableEq

/-- Embeds `get_file_versions` (file_manager.py lines 179-216): all versions with
this `file_id`, sorted by `version_number`. -/
def get_file_versions (st : ManagerState) (file_id : String) : List FileVersion :=
  List.insertionSort (fun a b => a.version_number ≤ b.version_number)
    (st.versions.filter fun v => v.file_id = file_id)

/-- Embeds `create_version` (file_manager.py lines 59-114): fresh `version_id`;
`version_number = len(existing_versions) + 1`; every existing version of the
file is flipped to `is_current = False`; the new version is stored current. -/
def create_version (st : ManagerState) (file_id : String) (content : List Nat)
    (created_by : String) (H : List Nat → String) : FileVersion × ManagerState :=
  let version_id := st.next_id
  let existing_versions := get_file_versions st file_id
  let version_number := existing_versions.length + 1
  let version : FileVersion :=
    { version_id := version_id
      file_id := file_id
      version_number := version_number
      hash := H content
      size := content.length
      created_by := created_by
      is_current := true }
  (version,
   { versions :=
       (st.versions.map fun v =>
         if v.file_id = file_id then { v with is_current := false } else v) ++ [version]
     contents := (version_id, content) :: st.contents
     next_id := st.next_id + 1 })

/-- Embeds `get_version` (file_manager.py lines 116-157). -/
def get_version (st : ManagerState) (version_id : Nat) : Option FileVersion :=
  st.versions.find? fun v => v.version_id = version_id

/-- Embeds `max(remaining_versions, key=lambda v: v.version_number)`: Python's
`max` returns the first maximal element. -/
def pickLatest : List FileVersion → Option FileVersion
  | [] => none
  | v :: rest =>
      some (rest.foldl
        (fun acc w => if w.version_number > acc.version_number then w else acc) v)

/-- Embeds `delete_version` (file_manager.py lines 270-318): refuses when the
version is the file's only one and is current; otherwise removes its data and
metadata; if it was current, the highest-numbered remaining version of the
file becomes current. -/
def delete_version (st : ManagerState) (version_id : Nat) : ManagerState × Bool :=
  match get_version st version_id with
  | none => (st, false)
  | some version =>
      let file_versions := get_file_versions st version.file_id
      if file_versions.length = 1 ∧ version.is_current then (st, false)
      else
        let versions' := st.versions.filter fun v => ¬ v.version_id = version_id
        let contents' := st.contents.filter fun c => ¬ c.1 = version_id
        if version.is_current then
          match pickLatest (file_versions.filter fun v => ¬ v.version_id = version_id) with
          | some latest =>
              ({ versions := versions'.map fun v =>
                   if v.version_id = latest.version_id then { v with is_current := true }
                   else v
                 contents := contents'
                 next_id := st.next_id }, true)
          | none => ({ versions := versions', contents := contents', next_id := st.next_id }, true)
        else ({ versions := versions', contents := contents', next_id := st.next_id }, true)

/-- Embeds `cleanup_old_versions` (file_manager.py lines 469-500):
`versions[:-keep_versions]` (empty when `keep_versions == 0`), skipping the
current version. -/
def cleanup_old_versions (st : ManagerState) (file_id : String)
    (keep_versions : Nat) : ManagerState × Nat :=
  let versions := get_file_versions st file_id
  if versions.length ≤ keep_versions then (st, 0)
  else
    let versions_to_delete :=
      if keep_versions = 0 then []
      else versions.take (versions.length - keep_versions)
    versions_to_delete.foldl
      (fun acc v =>
        if v.is_current then acc
        else
          let r := delete_version acc.1 v.version_id
          (r.1, if r.2 then acc.2 + 1 else acc.2))
      (st, 0)

/-- one `create_version` request -/
structure CreateOp where
  file_id : String
  content : List Nat
  created_by : String

/-- run a sequence of `create_version` calls -/
def applyCreates (H : List Nat → String) (st : ManagerState) :
    List CreateOp → ManagerState
  | [] => st
  | op :: rest =>
      applyCreates H (create_version st op.file_id op.content op.created_by H).2 rest

/-- version numbers of a file, in storage order -/
def numsOf (st : ManagerState) (fid : String) : List Nat :=
  (st.versions.filter fun v => v.file_id = fid).map (·.version_number)

/-- three creates of file `f`, then deletion of the first version, then one
more create: the runnable counterexample state -/
def c3Demo : ManagerState :=
  let s0 : ManagerState := ⟨[], [], 0⟩
  let s1 := (create_version s0 "f" [1] "n1" hashStub).2
  let s2 := (create_version s1 "f" [2] "n1" hashStub).2
  let s3 := (delete_version s2 0).1
  (create_version s3 "f" [3] "n1" hashStub).2

end FileVersionManager

/-! ### CoordinatorServer (src/coordinator/server.py)

State carried by the handlers the claims exercise:
  * `EnhancedVectorClockManager` — `node_clocks` and `global_nodes`
    (`global_nodes` is a Python set; it is modelled in insertion order,
    which never changes any mapping).
  * `SimpleFileManager` — `file_versions: fid → list of entries` and
    `file_content: version_id → bytes`; `uuid.uuid4()` version ids are
    modelled by the fresh counter `next_vid`.
  * the `files` table of `DatabaseManager` — `store_file` is
    `INSERT OR REPLACE` keyed on `file_id`; `get_online_nodes` is modelled
    by the list of online node ids.
  * the events recorded/broadcast by `broadcast_event`, in bus order
    (`event_id` is a fresh uuid and is omitted; datetimes are omitted).

External failure is modelled at the one point the replication loop's
`try/except` is exercised by the claims: `storeOk peer` says whether the
`db.store_file(replica_metadata)` write for that peer succeeds; when it is
false the write raises and the `except` branch emits `sync_error`
(server.py lines 1191-1208).
-/

/-- association-list update with Python-dict semantics: overwrite in place,
else append -/
def setAssoc {α : Type} : List (String × α) → String → α → List (String × α)
  | [], k, v => [(k, v)]
  | (k', v') :: rest, k, v =>
      if k' = k then (k, v) :: rest else (k', v') :: setAssoc rest k v

/-- Embeds `shared.models.FileMetadata` (datetime fields omitted) -/
structure FileMetadata where
  file_id : String
  name : String
  path : String
  size : Nat
  hash : String
  owner_node : String
  version : Nat
  vector_clock : VectorClockModel
  is_deleted : Bool
  content_type : Option String
deriving Repr, DecidableEq

/-- one entry of `SimpleFileManager.file_versions[fid]` (server.py lines
139-144; the `metadata` dict of the entry is not consulted by any modelled
operation) -/
structure SimpleVersion where
  version_id : Nat
  content_size : Nat
  created_by : String
deriving Repr, DecidableEq

structure SimpleFMState where
  file_versions : List (String × List SimpleVersion)
  file_content : List (Nat × List Nat)
  next_vid : Nat
deriving Repr, DecidableEq

/-- Embeds `SimpleFileManager.create_version` (server.py lines 132-145) -/
def fmCreateVersion (st : SimpleFMState) (file_id : String) (content : List Nat)
    (owner_node : String) : Nat × SimpleFMState :=
  let version_id := st.next_vid
  let entry : SimpleVersion :=
    { version_id := version_id, content_size := content.length, created_by := owner_node }
  let file_versions' :=
    match st.file_versions.lookup file_id with
    | some lst => setAssoc st.file_versions file_id (lst ++ [entry])
    | none => st.file_versions ++ [(file_id, [entry])]
  (version_id,
   { file_versions := file_versions'
     file_content := (version_id, content) :: st.file_content
     next_vid := st.next_vid + 1 })

/-- Embeds `SimpleFileManager.get_current_version` (server.py lines 147-151):
last entry of the file's list, `None` when absent or empty -/
def fmGetCurrentVersion (st : SimpleFMState) (file_id : String) : Option SimpleVersion :=
  match st.file_versions.lookup file_id with
  | some lst => lst.getLast?
  | none => none

/-- Embeds `SimpleFileManager.get_version_content` (server.py lines 153-155) -/
def fmGetVersionContent (st : SimpleFMState) (version_id : Nat) : Option (List Nat) :=
  st.file_content.lookup version_id

structure VCMState where
  node_clocks : List (String × VectorClockModel)
  global_nodes : List String
deriving Repr, DecidableEq

/-- Embeds `EnhancedVectorClockManager.register_node` (server.py lines 35-54) -/
def vcmRegisterNode (st : VCMState) (node_id : String) : VectorClockModel × VCMState :=
  let global' :=
    if st.global_nodes.contains node_id then st.global_nodes
    else st.global_nodes ++ [node_id]
  let initial : VectorClockModel :=
    ⟨VectorClockModel.setClock (global'.map fun n => (n, (0 : Int))) node_id 1⟩
  let node_clocks' := setAssoc st.node_clocks node_id initial
  let node_clocks'' := node_clocks'.map fun p =>
    if p.1 = node_id then p
    else (p.1, ⟨VectorClockModel.setClock p.2.clocks node_id 0⟩)
  (initial, { node_clocks := node_clocks'', global_nodes := global' })

/-- Embeds `EnhancedVectorClockManager.increment_clock` (server.py lines 56-63) -/
def vcmIncrementClock (st : VCMState) (node_id : String) : VectorClockModel × VCMState :=
  match st.node_clocks.lookup node_id with
  | none => vcmRegisterNode st node_id
  | some clock =>
      let clock' := clock.increment node_id
      (clock', { node_clocks := setAssoc st.node_clocks node_id clock'
                 global_nodes := st.global_nodes })

/-- a broadcast `SyncEvent` (shared/models.py lines 274-283), carrying the
payload fields the claims consult; `event_id` (a fresh uuid) and the
timestamp are omitted -/
structure SyncEvent where
  event_type : String
  node_id : String
  file_id : Option String
  action : Option String
  progress : Option Nat
  target_node : Option String
  source_node : Option String
  bytes_transferred : Option Nat
  version_id : Option Nat
  replica_file_id : Option String
  error : Option String
  vector_clock : VectorClockModel
deriving Repr, DecidableEq

/-- coordinator-side state touched by upload / delete / replication -/
structure CoordState where
  vcm : VCMState
  fm : SimpleFMState
  db_files : List FileMetadata
  online_nodes : List String
  events : List SyncEvent
deriving Repr, DecidableEq

/-- Embeds `DatabaseManager.store_file` (database.py lines 292-323):
`INSERT OR REPLACE` keyed on `file_id` -/
def storeFileDB (files : List FileMetadata) (md : FileMetadata) : List FileMetadata :=
  if files.any fun f => f.file_id = md.file_id then
    files.map fun f => if f.file_id = md.file_id then md else f
  else files ++ [md]

/-- Embeds `DatabaseManager.get_file` (database.py lines 325-341) -/
def getFileDB (files : List FileMetadata) (file_id : String) : Option FileMetadata :=
  files.find? fun f => f.file_id = file_id

/-- the replica record built in `_propagate_file_to_nodes`
(server.py lines 1116-1129) -/
def replicaMetadata (file_metadata : FileMetadata) (node_id : String) : FileMetadata :=
  { file_id := file_metadata.file_id ++ "_replica_" ++ node_id
    name := file_metadata.name
    path := "/" ++ node_id ++ "/replicas/" ++ file_metadata.name
    size := file_metadata.size
    hash := file_metadata.hash
    owner_node := node_id
    version := file_metadata.version
    vector_clock := file_metadata.vector_clock
    is_deleted := false
    content_type := file_metadata.content_type }

/-- the `sync_started` / `syncing` progress event of the replication loop
(server.py lines 1098-1113 and 1134-1149) -/
def progressEvent (file_metadata : FileMetadata) (node_id : String)
    (action : String) (progress : Nat) : SyncEvent :=
  { event_type := "file_sync_progress"
    node_id := node_id
    file_id := some file_metadata.file_id
    action := some action
    progress := some progress
    target_node := some node_id
    source_node := some file_metadata.owner_node
    bytes_transferred := none
    version_id := none
    replica_file_id := none
    error := none
    vector_clock := ⟨[(node_id, 1)]⟩ }

/-- the `sync_completed` event (server.py lines 1169-1186) -/
def completedEvent (file_metadata : FileMetadata) (node_id : String)
    (file_data : List Nat) (file_version : Nat) (replica_file_id : String) : SyncEvent :=
  { event_type := "sync_completed"
    node_id := node_id
    file_id := some file_metadata.file_id
    action := some "sync_completed"
    progress := none
    target_node := some node_id
    source_node := some file_metadata.owner_node
    bytes_transferred := some file_data.length
    version_id := some file_version
    replica_file_id := some replica_file_id
    error := none
    vector_clock := ⟨[(node_id, 1)]⟩ }

/-- the `sync_error` event (server.py lines 1194-1208) -/
def syncErrorEvent (file_metadata : FileMetadata) (node_id : String)
    (msg : String) : SyncEvent :=
  { event_type := "sync_error"
    node_id := node_id
    file_id := some file_metadata.file_id
    action := none
    progress := none
    target_node := some node_id
    source_node := some file_metadata.owner_node
    bytes_transferred := none
    version_id := none
    replica_file_id := none
    error := some msg
    vector_clock := ⟨[(node_id, 1)]⟩ }

/-- the per-peer body of `_propagate_file_to_nodes` (server.py lines
1096-1208): started event, three progress events, replica store, replica
version, completed event; on a failing replica store the events already
emitted stand and `sync_error` follows. -/
def propagateNode (storeOk : String → Bool) (file_metadata : FileMetadata)
    (file_data : List Nat) (node_id : String) (st : CoordState) : CoordState :=
  let started := progressEvent file_metadata node_id "sync_started" 0
  let prog := [25, 50, 75].map (progressEvent file_metadata node_id "syncing")
  let replica := replicaMetadata file_metadata node_id
  if storeOk node_id then
    let r := fmCreateVersion st.fm replica.file_id file_data node_id
    { st with
      db_files := storeFileDB st.db_files replica
      fm := r.2
      events := st.events ++ [started] ++ prog ++
        [completedEvent file_metadata node_id file_data r.1 replica.file_id] }
  else
    { st with
      events := st.events ++ [started] ++ prog ++
        [syncErrorEvent file_metadata node_id "store_file failed"] }

/-- the iteration of `_propagate_file_to_nodes` over the node list -/
def propagateLoop (storeOk : String → Bool) (file_metadata : FileMetadata)
    (file_data : List Nat) : List String → CoordState → CoordState
  | [], st => st
  | node_id :: rest, st =>
      if node_id ≠ file_metadata.owner_node then
        propagateLoop storeOk file_metadata file_data rest
          (propagateNode storeOk file_metadata file_data node_id st)
      else propagateLoop storeOk file_metadata file_data rest st

/-- Embeds `_propagate_file_to_nodes` (server.py lines 1088-1210): iterate the
online nodes, skipping the owner (the `version` argument of the source is
never used inside the loop). -/
def propagate (storeOk : String → Bool) (file_metadata : FileMetadata)
    (file_data : List Nat) (st : CoordState) : CoordState :=
  propagateLoop storeOk file_metadata file_data st.online_nodes st

/-- the `file_deleted` event of the delete handler (server.py lines 611-624) -/
def fileDeletedEvent (file_id : String) (node_id : String) : SyncEvent :=
  { event_type := "file_deleted"
    node_id := node_id
    file_id := some file_id
    action := some "deleted"
    progress := none
    target_node := none
    source_node := none
    bytes_transferred := none
    version_id := none
    replica_file_id := none
    error := none
    vector_clock := ⟨[(node_id, 1)]⟩ }

structure DeleteResult where
  success : Bool
  http_status : Nat
deriving Repr, DecidableEq

/-- Embeds `delete_file` (server.py lines 582-632): requires `node_id` in the body;
404 when the file is unknown; otherwise sets `is_deleted = True`, re-stores
the metadata, drops the file's entry from `file_manager.file_versions`
(`file_content` is untouched), and broadcasts `file_deleted`. -/
def delete_file (st : CoordState) (file_id : String) (node_id : Option String) :
    DeleteResult × CoordState :=
  match node_id with
  | none => ({ success := false, http_status := 400 }, st)
  | some nid =>
      match getFileDB st.db_files file_id with
      | none => ({ success := false, http_status := 404 }, st)
      | some file_metadata =>
          let md' := { file_metadata with is_deleted := true }
          ({ success := true, http_status := 200 },
           { st with
             db_files := storeFileDB st.db_files md'
             fm := { st.fm with
               file_versions := st.fm.file_versions.filter fun p => ¬ p.1 = file_id }
             events := st.events ++ [fileDeletedEvent file_id nid] })

/-- Embeds `shared.models.FileUploadRequest` (the request's `vector_clock` field is
never read by the upload handler and is omitted) -/
structure FileUploadRequest where
  file_metadata : FileMetadata
  chunks : List FileChunk
  use_delta_sync : Bool
deriving Repr, DecidableEq

structure UploadResponse where
  status : String
  version_id : Option Nat
  detail : Option String
deriving Repr, DecidableEq

/-- Embeds `b''.join(chunk.data for chunk in request.chunks if chunk.data)`
(server.py line 458): falsy (empty) chunk data is skipped -/
def joinChunks (chunks : List FileChunk) : List Nat :=
  (chunks.filterMap fun c => if c.data = [] then none else some c.data).flatten

/-- the previous-version content consulted by the upload handler
(server.py lines 467-472) -/
def uploadOldContent (st : CoordState) (req : FileUploadRequest) : List Nat :=
  if req.use_delta_sync then
    match fmGetCurrentVersion st.fm req.file_metadata.file_id with
    | some cv => (fmGetVersionContent st.fm cv.version_id).getD []
    | none => []
  else []

/-- the `file_modified` event of the upload handler (server.py lines
514-535) -/
def fileModifiedEvent (md : FileMetadata) (version : Nat)
    (clock : VectorClockModel) : SyncEvent :=
  { event_type := "file_modified"
    node_id := md.owner_node
    file_id := some md.file_id
    action := some "uploaded"
    progress := none
    target_node := none
    source_node := none
    bytes_transferred := none
    version_id := some version
    replica_file_id := none
    error := none
    vector_clock := clock }

/-- the owner clock produced by `increment_clock` at the top of the upload
handler (server.py line 455) -/
def uploadClock (req : FileUploadRequest) (st : CoordState) : VectorClockModel :=
  (vcmIncrementClock st.vcm req.file_metadata.owner_node).1

/-- the metadata record of the upload after the silent hash recomputation
(server.py lines 461-464) and the vector-clock assignment (line 482) -/
def uploadMd2 (H : List Nat → String) (req : FileUploadRequest)
    (st : CoordState) : FileMetadata :=
  let file_data := joinChunks req.chunks
  let md1 :=
    if H file_data ≠ req.file_metadata.hash then
      { req.file_metadata with hash := H file_data }
    else req.file_metadata
  { md1 with vector_clock := uploadClock req st }

/-- the coordinator state after the upload's own effects (clock increment,
version creation, metadata store, `file_modified` broadcast) and before
`_propagate_file_to_nodes` runs -/
def uploadStatePre (H : List Nat → String) (req : FileUploadRequest)
    (st : CoordState) : CoordState :=
  let file_data := joinChunks req.chunks
  let r2 := fmCreateVersion st.fm (uploadMd2 H req st).file_id file_data
    (uploadMd2 H req st).owner_node
  { vcm := (vcmIncrementClock st.vcm req.file_metadata.owner_node).2
    fm := r2.2
    db_files := storeFileDB st.db_files (uploadMd2 H req st)
    online_nodes := st.online_nodes
    events := st.events ++ [fileModifiedEvent (uploadMd2 H req st) r2.1 (uploadClock req st)] }

/-- Embeds `upload_file` (server.py lines 448-551): increment the owner clock,
join the chunk bytes, recompute the hash and silently overwrite a
mismatching declared hash, build the delta against the previous version,
create the version, store the metadata, broadcast `file_modified`,
propagate to the online peers.  A `NameError` from the delta step (see
`contentScan`) propagates to the handler's `except`, which answers
HTTP 500 — after the clock increment already happened. -/
def upload_file (H : List Nat → String) (storeOk : String → Bool)
    (req : FileUploadRequest) (st : CoordState) : UploadResponse × CoordState :=
  let st1 := { st with vcm := (vcmIncrementClock st.vcm req.file_metadata.owner_node).2 }
  let file_data := joinChunks req.chunks
  match create_content_delta H (uploadOldContent st1 req) file_data
      req.file_metadata.file_id with
  | .error e =>
      ({ status := "error", version_id := none, detail := some ("Upload error: " ++ e) },
       st1)
  | .ok _ =>
      ({ status := "success"
         version_id := some (fmCreateVersion st.fm (uploadMd2 H req st).file_id
           file_data (uploadMd2 H req st).owner_node).1
         detail := none },
       propagate storeOk (uploadMd2 H req st) file_data (uploadStatePre H req st))

/-- a one-file, one-version coordinator state used by closed evaluations -/
def c8Md : FileMetadata :=
  { file_id := "f1", name := "a.txt", path := "/n1/a.txt", size := 1, hash := "h",
    owner_node := "n1", version := 1, vector_clock := ⟨[("n1", 2)]⟩,
    is_deleted := false, content_type := none }

def c8Demo : CoordState :=
  { vcm := ⟨[], []⟩
    fm := ⟨[("f1", [⟨0, 1, "n1"⟩])], [(0, [7])], 1⟩
    db_files := [c8Md]
    online_nodes := []
    events := [] }

/-- an upload request whose declared hash does not match its content -/
def c9Req : FileUploadRequest :=
  { file_metadata :=
      { file_id := "f2", name := "b.txt", path := "/n1/b.txt", size := 0,
        hash := "deadbeef", owner_node := "n1", version := 1,
        vector_clock := ⟨[]⟩, is_deleted := false, content_type := none }
    chunks := []
    use_delta_sync := false }

def c9St : CoordState :=
  { vcm := ⟨[], []⟩, fm := ⟨[], [], 0⟩, db_files := [], online_nodes := [], events := [] }

/-- the replica version data recorded by the replication loop: some version
of the replica file id exists, holds the replicated bytes, and its id is
below the allocator bound -/
def fmHasReplica (fm : SimpleFMState) (rid : String) (data : List Nat) : Prop :=
  ∃ vid lst, vid < fm.next_vid ∧ fm.file_versions.lookup rid = some lst ∧
    (∃ e ∈ lst, e.version_id = vid) ∧ fm.file_content.lookup vid = some data

def c6St : CoordState :=
  { vcm := ⟨[], []⟩, fm := ⟨[], [], 0⟩, db_files := [], online_nodes := ["n2"],
    events := [] }

/-- the deterministic payload of a replication event: everything the claims
compare, except the version id (a fresh uuid in the source, a fresh counter
here) -/
structure EventSummary where
  event_type : String
  action : Option String
  progress : Option Nat
  bytes_transferred : Option Nat
  replica_file_id : Option String
  target_node : Option String
deriving Repr, DecidableEq

def eventSummary (e : SyncEvent) : EventSummary :=
  { event_type := e.event_type
    action := e.action
    progress := e.progress
    bytes_transferred := e.bytes_transferred
    replica_file_id := e.replica_file_id
    target_node := e.target_node }

/-- the events one peer's replication appends, as emitted by
`propagateNode` (`vid` is the replica's version id) -/
def nodeEventList (storeOk : String → Bool) (md : FileMetadata) (data : List Nat)
    (n : String) (vid : Nat) : List SyncEvent :=
  [progressEvent md n "sync_started" 0]
    ++ [25, 50, 75].map (progressEvent md n "syncing")
    ++ (if storeOk n then
          [completedEvent md n data vid (md.file_id ++ "_replica_" ++ n)]
        else [syncErrorEvent md n "store_file failed"])

/-- the event sequence §4.6 prescribes per peer: `sync_started` at progress
0, `sync_progress` at 25, 50, 75, then `sync_completed` with the byte count
and replica id — or `sync_error` after the progress events when the peer's
replication fails -/
def expectedPeerTrace (md : FileMetadata) (data : List Nat)
    (storeOk : String → Bool) (p : String) : List EventSummary :=
  [⟨"file_sync_progress", some "sync_started", some 0, none, none, some p⟩,
   ⟨"file_sync_progress", some "syncing", some 25, none, none, some p⟩,
   ⟨"file_sync_progress", some "syncing", some 50, none, none, some p⟩,
   ⟨"file_sync_progress", some "syncing", some 75, none, none, some p⟩]
    ++ (if storeOk p then
          [⟨"sync_completed", some "sync_completed", none, some data.length,
            some (md.file_id ++ "_replica_" ++ p), some p⟩]
        else [⟨"sync_error", none, none, none, none, some p⟩])

end FileSync

namespace FileSync

theorem vcGT_swap_union (a b : VectorClockModel) :
    vcGT a b ↔ ∃ k ∈ VectorClockModel.allNodes b a,
      VectorClockModel.get a k > VectorClockModel.get b k := by
  unfold vcGT VectorClockModel.allNodes
  constructor <;> rintro ⟨k, hk, hgt⟩ <;> exact ⟨k, by
    simp only [List.mem_append] at hk ⊢; tauto, hgt⟩

theorem any_eq_vcGT (a b : VectorClockModel) :
    ((VectorClockModel.allNodes a b).any fun k =>
      VectorClockModel.get a k > VectorClockModel.get b k) = true ↔ vcGT a b := by
  rw [List.any_eq_true]
  unfold vcGT
  constructor
  · rintro ⟨k, hk, h⟩; exact ⟨k, hk, by simpa using h⟩
  · rintro ⟨k, hk, h⟩; exact ⟨k, hk, by simpa using h⟩

theorem any_eq_vcGT' (a b : VectorClockModel) :
    ((VectorClockModel.allNodes a b).any fun k =>
      VectorClockModel.get b k > VectorClockModel.get a k) = true ↔ vcGT b a := by
  rw [List.any_eq_true]
  rw [vcGT_swap_union b a]
  constructor
  · rintro ⟨k, hk, h⟩; exact ⟨k, hk, by simpa using h⟩
  · rintro ⟨k, hk, h⟩; exact ⟨k, hk, by simpa using h⟩

theorem eq_decide_of_iff {X : Bool} {P : Prop} [Decidable P] (h : X = true ↔ P) :
    X = decide P := by
  by_cases hP : P
  · simp [hP, h.mpr hP]
  · have hx : X ≠ true := fun hxt => hP (h.mp hxt)
    simp [hP, Bool.eq_false_iff.mpr hx]

theorem compare_eq_ite (a b : VectorClockModel) :
    VectorClockModel.compare a b =
      if vcGT a b then (if vcGT b a then "concurrent" else "after")
      else (if vcGT b a then "before" else "equal") := by
  unfold VectorClockModel.compare
  rw [eq_decide_of_iff (any_eq_vcGT a b), eq_decide_of_iff (any_eq_vcGT' a b)]
  by_cases h1 : vcGT a b <;> by_cases h2 : vcGT b a <;> simp [h1, h2]

/-- C2: `compare(a, b)` is decided elementwise over the union of key sets
with missing keys read as zero; the result is `equal` when neither side has a
strictly greater component, `after` when only `a` does, `before` when only
`b` does, `concurrent` otherwise; for all clocks exactly one of the four
outcomes holds and `compare(a,b) = equal ↔ compare(b,a) = equal`. -/
theorem compare_spec (a b : VectorClockModel) :
    (VectorClockModel.compare a b = "equal" ↔ ¬ vcGT a b ∧ ¬ vcGT b a) ∧
    (VectorClockModel.compare a b = "after" ↔ vcGT a b ∧ ¬ vcGT b a) ∧
    (VectorClockModel.compare a b = "before" ↔ vcGT b a ∧ ¬ vcGT a b) ∧
    (VectorClockModel.compare a b = "concurrent" ↔ vcGT a b ∧ vcGT b a) ∧
    (VectorClockModel.compare a b = "equal" ↔ VectorClockModel.compare b a = "equal") ∧
    (∃! r, r ∈ (["equal", "before", "after", "concurrent"] : List String) ∧
      VectorClockModel.compare a b = r) := by
  rw [compare_eq_ite a b, compare_eq_ite b a]
  by_cases h1 : vcGT a b <;> by_cases h2 : vcGT b a <;>
    simp only [h1, h2, if_true, if_false, ite_true, ite_false] <;>
    refine ⟨by simp [h1, h2], by simp [h1, h2], by simp [h1, h2], by simp [h1, h2],
      by simp, ?_⟩
  · exact ⟨"concurrent", ⟨by simp, rfl⟩, fun y hy => hy.2.symm⟩
  · exact ⟨"after", ⟨by simp, rfl⟩, fun y hy => hy.2.symm⟩
  · exact ⟨"before", ⟨by simp, rfl⟩, fun y hy => hy.2.symm⟩
  · exact ⟨"equal", ⟨by simp, rfl⟩, fun y hy => hy.2.symm⟩

theorem chunkGo_flatten (cs : Nat) :
    ∀ (l acc : List Nat) (k : Nat), (chunkGo cs l acc k).flatten = acc.reverse ++ l := by
  intro l
  induction l with
  | nil =>
      intro acc k
      by_cases h : acc.isEmpty
      · simp [chunkGo, h, List.isEmpty_iff.mp h]
      · simp [chunkGo, h]
  | cons x xs ih =>
      intro acc k
      match k with
      | 0 => simp [chunkGo, ih]
      | k + 1 => simp [chunkGo, ih]

theorem chunksOf_flatten (cs : Nat) (l : List Nat) : (chunksOf cs l).flatten = l := by
  cases l with
  | nil => rfl
  | cons x xs => simp [chunksOf, chunkGo_flatten]

theorem contentScan_all_unchanged (oldKeys : List String) (H : List Nat → String) :
    ∀ (chunks : List (List Nat)) (idx : Nat),
      (∀ c ∈ chunks, H c ∈ oldKeys) →
      contentScan oldKeys H idx chunks =
        .ok (List.range' idx chunks.length, [], (chunks.map List.length).sum) := by
  intro chunks
  induction chunks with
  | nil => intro idx _; simp [contentScan, List.range']
  | cons c rest ih =>
      intro idx hmem
      have hc : oldKeys.contains (H c) = true :=
        List.elem_eq_true_of_mem (hmem c (by simp))
      rw [contentScan, if_pos hc, ih (idx + 1) fun d hd => hmem d (by simp [hd])]
      simp [List.range'_succ]

theorem create_signature_strong (H : List Nat → String) (data : List Nat) :
    (create_signature H data).map (·.strong_hash) = (chunksOf 4096 data).map H := by
  unfold create_signature
  rw [List.map_map]
  have h2 : ((chunksOf 4096 data).enum.map Prod.snd).map H = (chunksOf 4096 data).map H := by
    rw [List.enum_map_snd]
  rw [← h2, List.map_map]
  rfl

theorem chunksOf_length_sum (cs : Nat) (l : List Nat) :
    ((chunksOf cs l).map List.length).sum = l.length := by
  have h1 := List.length_flatten (chunksOf cs l)
  rw [chunksOf_flatten] at h1
  exact h1.symm

/-- C4 (amended): for every non-empty byte string `B`, the delta of `B`
against itself has `chunks_to_add` empty and `bandwidth_saved = |B|`, but
`compression_ratio` is the percentage `100.0`, not `1.0`
(server.py line 254: `bandwidth_saved / len(new_content) * 100`). -/
theorem create_content_delta_identical (H : List Nat → String) (x : Nat)
    (rest : List Nat) (fid : String) :
    ∃ d, create_content_delta H (x :: rest) (x :: rest) fid = .ok d ∧
      d.chunks_to_add = [] ∧ d.bandwidth_saved = (x :: rest).length ∧
      d.compression_ratio = 100 := by
  have hmem : ∀ c ∈ chunksOf 4096 (x :: rest),
      H c ∈ (create_signature H (x :: rest)).map (·.strong_hash) := by
    intro c hc
    rw [create_signature_strong]
    exact List.mem_map_of_mem H hc
  have hscan := contentScan_all_unchanged
    ((create_signature H (x :: rest)).map (·.strong_hash)) H
    (chunksOf 4096 (x :: rest)) 0 hmem
  have hlen : ((chunksOf 4096 (x :: rest)).map List.length).sum = (x :: rest).length :=
    chunksOf_length_sum 4096 (x :: rest)
  have hpos : ((x :: rest).length : ℚ) ≠ 0 := by
    simp [Nat.cast_add]
    positivity
  refine ⟨{ file_id := fid,
            old_hash := some (H (x :: rest)),
            new_hash := H (x :: rest),
            old_size := (x :: rest).length,
            new_size := (x :: rest).length,
            chunks_to_add := [],
            chunks_to_remove := [],
            chunks_unchanged := List.range' 0 (chunksOf 4096 (x :: rest)).length,
            total_chunks := (chunksOf 4096 (x :: rest)).length,
            bandwidth_saved := (List.map List.length (chunksOf 4096 (x :: rest))).sum,
            compression_ratio :=
              ((List.map List.length (chunksOf 4096 (x :: rest))).sum : ℚ) /
                ((x :: rest).length : ℚ) * 100 }, ?_, rfl, hlen, ?_⟩
  · unfold create_content_delta
    simp only [if_neg (List.cons_ne_nil x rest)]
    rw [hscan]
  · simp only [hlen, div_self hpos, one_mul]

/-- C4 counterexample: for `B = b"a"` the code's `compression_ratio` is the
percentage `100.0` (server.py line 254 multiplies by 100), not `1.0` as the
claim states. -/
theorem compression_ratio_is_percent_counterexample :
    (create_content_delta hashStub [97] [97] "f").toOption.map FileDelta.compression_ratio
      = some 100 ∧ (100 : ℚ) ≠ 1 := by
  constructor
  · have hscan : contentScan ((create_signature hashStub [97]).map (·.strong_hash)) hashStub 0
        (chunksOf 4096 [97]) = .ok ([0], [], 1) := by
      have h1 : chunksOf 4096 [97] = [[97]] := by decide
      rw [h1]
      simp [contentScan, create_signature, hashStub, h1]
    unfold create_content_delta
    simp only [if_neg (List.cons_ne_nil 97 [])]
    rw [hscan]
    norm_num
    exact ⟨_, rfl, rfl⟩
  · norm_num

/-- C1: the code is wrong — `apply_delta` (server.py lines 272-287)
reconstructs from `chunks_to_add` only, ignoring `old_content` and the
unchanged-chunk indices (acknowledged in the source comment "In a real
implementation, this would reconstruct from unchanged + new chunks").
At `X = Y = b"a"` the delta has every chunk unchanged, so
`apply_delta(X, compute_delta(X, X))` returns `b""`, not `Y`. -/
theorem apply_delta_ignores_unchanged_chunks :
    (create_content_delta hashStub [97] [97] "f1").toOption.map (apply_delta [97])
      = some [] ∧ some ([] : List Nat) ≠ some [97] := by decide

namespace DeltaSync

theorem apply_delta_foldl_step (old_content : List Nat) (result : List Nat)
    (op : DeltaOperation) :
    (if op.operation = "add" then
        match op.data with
        | some d => if d = [] then result else result ++ d
        | none => result
      else if op.operation = "copy" then
        match op.source_offset with
        | some so =>
            if old_content = [] then result
            else result ++ ((old_content.drop so).take op.size)
        | none => result
      else result) = result ++ opChunk old_content op := by
  unfold opChunk
  by_cases h1 : op.operation = "add"
  · simp only [h1, if_true, ite_true]
    cases hd : op.data with
    | none => simp
    | some d =>
        by_cases hde : d = [] <;> simp [hde]
  · by_cases h2 : op.operation = "copy"
    · simp only [h1, h2, if_false, if_true, ite_false, ite_true]
      cases hso : op.source_offset with
      | none => simp
      | some so =>
          by_cases ho : old_content = [] <;> simp [ho]
    · simp [h1, h2]

theorem apply_delta_eq_flatten (old_content : List Nat) (ops : List DeltaOperation) :
    apply_delta old_content ops = (ops.map (opChunk old_content)).flatten := by
  unfold apply_delta
  suffices h : ∀ (l : List DeltaOperation) (acc : List Nat),
      l.foldl
        (fun result op =>
          if op.operation = "add" then
            match op.data with
            | some d => if d = [] then result else result ++ d
            | none => result
          else if op.operation = "copy" then
            match op.source_offset with
            | some so =>
                if old_content = [] then result
                else result ++ ((old_content.drop so).take op.size)
            | none => result
          else result)
        acc = acc ++ (l.map (opChunk old_content)).flatten by
    simpa using h ops []
  intro l
  induction l with
  | nil => intro acc; simp
  | cons op rest ih =>
      intro acc
      rw [List.foldl_cons, apply_delta_foldl_step, ih, List.map_cons,
        List.flatten_cons, List.append_assoc]

theorem opChunk_of_add (old_content : List Nat) (op : DeltaOperation)
    (h : op.operation = "add") : opChunk old_content op = op.data.getD [] := by
  cases hd : op.data <;> simp [opChunk, h, hd]

theorem optGo_flatten (old_content : List Nat) :
    ∀ (rest : List DeltaOperation) (cur : DeltaOperation),
      ((optGo cur rest).map (opChunk old_content)).flatten =
        opChunk old_content cur ++ (rest.map (opChunk old_content)).flatten := by
  intro rest
  induction rest with
  | nil => intro cur; simp [optGo]
  | cons next_op rest ih =>
      intro cur
      rw [optGo]
      by_cases hmerge : cur.operation = "add" ∧ next_op.operation = "add" ∧
          cur.offset + cur.size = next_op.offset
      · rw [if_pos hmerge, ih, List.map_cons, List.flatten_cons,
          opChunk_of_add old_content _ rfl, opChunk_of_add old_content cur hmerge.1,
          opChunk_of_add old_content next_op hmerge.2.1]
        simp [List.append_assoc]
      · rw [if_neg hmerge, List.map_cons, List.flatten_cons, ih, List.map_cons,
          List.flatten_cons]

/-- C10: optimisation is sound — applying the optimised operation list
reconstructs exactly the same bytes as applying the original list, for every
operation list and every base content; merging adjacent add operations never
changes the output. -/
theorem apply_optimize_delta_eq (old_content : List Nat) (ops : List DeltaOperation) :
    apply_delta old_content (optimize_delta ops) = apply_delta old_content ops := by
  cases ops with
  | nil => rfl
  | cons op rest =>
      rw [apply_delta_eq_flatten, apply_delta_eq_flatten, optimize_delta,
        optGo_flatten, List.map_cons, List.flatten_cons]

end DeltaSync

/-- C5 (amended): `create_content_delta` always returns
`chunks_to_remove = []` (server.py line 263, "Not used in this simple
implementation"); the single-remove-for-empty-new behaviour exists only in
`DeltaSync.generate_delta`, which returns one `delete` operation covering all
of `old_bytes` when `new_bytes` is empty and `old_bytes` is not. -/
theorem delta_remove_semantics :
    (∀ (H : List Nat → String) (old_content new_content : List Nat) (fid : String),
      match create_content_delta H old_content new_content fid with
      | .ok d => d.chunks_to_remove = []
      | .error _ => True) ∧
    (∀ (H : List Nat → String) (pyH : List Nat → Int) (chunk_size x : Nat)
        (old : List Nat),
      DeltaSync.generate_delta H pyH chunk_size (x :: old) [] =
        [{ operation := "delete", offset := 0, size := (x :: old).length }]) := by
  constructor
  · intro H old_content new_content fid
    simp only [create_content_delta]
    cases hscan : contentScan
        ((if old_content = [] then [] else create_signature H old_content).map
          (·.strong_hash)) H 0 (chunksOf 4096 new_content) with
    | error e => trivial
    | ok r =>
        obtain ⟨u, adds, bw⟩ := r
        rfl
  · intro H pyH chunk_size x old
    rw [DeltaSync.generate_delta, if_neg (List.cons_ne_nil x old), if_pos rfl]

/-- C5 counterexample: at `old = b"a"`, `new = b""` the old chunk of index 0
has a strong hash that appears in no new chunk (there are none), yet the code
returns `chunks_to_remove = []` and no operations at all — not the claimed
remove of index 0 covering `old_bytes`. -/
theorem chunks_to_remove_always_empty_counterexample :
    (create_content_delta hashStub [97] [] "f").toOption.map
        (fun d => (d.chunks_to_remove, d.chunks_to_add.length)) = some ([], 0) ∧
      ([] : List Nat) ≠ [0] := by decide

namespace FileVersionManager

theorem numsOf_create (H : List Nat → String) (st : ManagerState) (fid0 : String)
    (content : List Nat) (cb : String) (fid : String) :
    numsOf (create_version st fid0 content cb H).2 fid =
      if fid0 = fid then
        numsOf st fid ++ [(get_file_versions st fid0).length + 1]
      else numsOf st fid := by
  unfold numsOf create_version
  simp only [List.filter_append, List.map_append]
  have hcomp : ∀ v : FileVersion,
      (if v.file_id = fid0 then { v with is_current := false } else v).file_id
        = v.file_id := by
    intro v
    by_cases h : v.file_id = fid0 <;> simp [h]
  have hfilter :
      (st.versions.map fun v =>
          if v.file_id = fid0 then { v with is_current := false } else v).filter
        (fun v => v.file_id = fid) =
      (st.versions.filter fun v => v.file_id = fid).map
        (fun v => if v.file_id = fid0 then { v with is_current := false } else v) := by
    rw [List.filter_map]
    congr 1
    apply List.filter_congr
    intro v _
    simp [hcomp v]
  rw [hfilter, List.map_map]
  have hnum : ∀ v : FileVersion,
      ((fun x => x.version_number) ∘
        fun v => if v.file_id = fid0 then { v with is_current := false } else v) v
        = v.version_number := by
    intro v
    by_cases h : v.file_id = fid0 <;> simp [h]
  rw [List.map_congr_left fun v _ => hnum v]
  by_cases hf : fid0 = fid
  · simp [hf]
  · simp [hf, Ne.symm]

theorem numsOf_sorted_get (st : ManagerState) (fid : String)
    (h : numsOf st fid = List.range' 1 (numsOf st fid).length) :
    get_file_versions st fid = st.versions.filter fun v => v.file_id = fid := by
  apply List.Sorted.insertionSort_eq
  have hpair : (numsOf st fid).Pairwise (· ≤ ·) := by
    rw [h]
    exact (List.pairwise_lt_range' _ _ 1 (by omega)).imp le_of_lt
  unfold numsOf at hpair
  rw [List.pairwise_map] at hpair
  exact hpair

theorem get_file_versions_length (st : ManagerState) (fid : String) :
    (get_file_versions st fid).length = (numsOf st fid).length := by
  unfold get_file_versions numsOf
  rw [List.length_insertionSort, List.length_map]

theorem creates_invariant (H : List Nat → String) :
    ∀ (ops : List CreateOp) (st : ManagerState),
      (∀ fid, numsOf st fid = List.range' 1 (numsOf st fid).length) →
      ∀ fid, numsOf (applyCreates H st ops) fid =
        List.range' 1 ((numsOf st fid).length + ops.countP fun op => op.file_id = fid) := by
  intro ops
  induction ops with
  | nil =>
      intro st hst fid
      simpa [applyCreates] using hst fid
  | cons op rest ih =>
      intro st hst fid
      have hlen1 : ∀ fid', numsOf (create_version st op.file_id op.content op.created_by H).2 fid'
          = List.range' 1
              ((numsOf st fid').length + if op.file_id = fid' then 1 else 0) := by
        intro fid'
        rw [numsOf_create]
        by_cases hf : op.file_id = fid'
        · have hval := hst fid'
          rw [if_pos hf, if_pos hf, get_file_versions_length, hf, List.range'_concat,
            ← hval]
          congr 1
          simp [Nat.add_comm]
        · rw [if_neg hf, if_neg hf]
          simpa using hst fid'
      have hst1 : ∀ fid', numsOf (create_version st op.file_id op.content op.created_by H).2 fid'
          = List.range' 1
              (numsOf (create_version st op.file_id op.content op.created_by H).2 fid').length := by
        intro fid'
        rw [hlen1 fid', List.length_range']
      have hfin := ih (create_version st op.file_id op.content op.created_by H).2 hst1 fid
      rw [applyCreates, hfin, hlen1 fid, List.length_range', List.countP_cons]
      congr 1
      by_cases hf : op.file_id = fid <;> simp [hf] <;> omega

/-- C3 (amended): `create_version` assigns
`version_number = len(existing versions) + 1` (1 when the file has none),
which coincides with `max(existing) + 1` only while the history consists of
`create_version` calls alone; for every sequence of pure creates the
version numbers of each file are exactly the contiguous range `[1..N]`.
(After `delete_version`, contiguity fails — see the counterexample.) -/
theorem create_version_numbering :
    (∀ (H : List Nat → String) (st : ManagerState) (fid : String)
        (content : List Nat) (cb : String),
      ((create_version st fid content cb H).1).version_number =
        (get_file_versions st fid).length + 1) ∧
    (∀ (H : List Nat → String) (ops : List CreateOp) (fid : String),
      (get_file_versions (applyCreates H ⟨[], [], 0⟩ ops) fid).map (·.version_number)
        = List.range' 1 (ops.countP fun op => op.file_id = fid)) := by
  constructor
  · intro H st fid content cb
    rfl
  · intro H ops fid
    have hbase : ∀ fid', numsOf (⟨[], [], 0⟩ : ManagerState) fid'
        = List.range' 1 (numsOf (⟨[], [], 0⟩ : ManagerState) fid').length := by
      intro fid'
      simp [numsOf]
    have hfin := creates_invariant H ops ⟨[], [], 0⟩ hbase fid
    have hzero : (numsOf (⟨[], [], 0⟩ : ManagerState) fid).length = 0 := by
      simp [numsOf]
    rw [hzero, Nat.zero_add] at hfin
    have hsorted : numsOf (applyCreates H ⟨[], [], 0⟩ ops) fid
        = List.range' 1 (numsOf (applyCreates H ⟨[], [], 0⟩ ops) fid).length := by
      rw [hfin, List.length_range']
    have hget := numsOf_sorted_get (applyCreates H ⟨[], [], 0⟩ ops) fid hsorted
    rw [hget]
    exact hfin

/-- C3 counterexample: create two versions of `f` (numbers 1, 2), delete
version number 1, create again — `create_version` assigns
`len(existing)+1 = 2`, duplicating an existing number; the remaining numbers
are `[2, 2]`, not the contiguous `[1..2]` the claim requires (and not
`max(existing)+1 = 3` either). -/
theorem version_numbers_not_contiguous_counterexample :
    (get_file_versions c3Demo "f").map (·.version_number) = [2, 2] ∧
      ([2, 2] : List Nat) ≠ [1, 2] := by decide

end FileVersionManager

theorem lookup_filter_out {α : Type} (l : List (String × α)) (k : String) :
    (l.filter fun p => ¬ p.1 = k).lookup k = none := by
  induction l with
  | nil => rfl
  | cons p rest ih =>
      obtain ⟨a, b⟩ := p
      by_cases h : a = k
      · simpa [List.filter_cons, h] using ih
      · have hba : (k == a) = false := beq_eq_false_iff_ne.mpr fun hk => h hk.symm
        simpa [List.filter_cons, h, List.lookup, hba] using ih

theorem getFileDB_store_self (files : List FileMetadata) (md : FileMetadata) :
    getFileDB (storeFileDB files md) md.file_id = some md := by
  unfold storeFileDB getFileDB
  by_cases hany : files.any (fun f => f.file_id = md.file_id) = true
  · rw [if_pos hany]
    induction files with
    | nil => simp at hany
    | cons f rest ih =>
        by_cases hf : f.file_id = md.file_id
        · simp [List.find?_cons, hf]
        · have hrest : rest.any (fun f => f.file_id = md.file_id) = true := by
            simpa [List.any_cons, hf] using hany
          simpa [List.find?_cons, hf] using ih hrest
  · rw [if_neg hany]
    have hnone : files.find? (fun f => f.file_id = md.file_id) = none := by
      rw [List.find?_eq_none]
      intro f hf hc
      exact hany (List.any_eq_true.mpr ⟨f, hf, hc⟩)
    rw [List.find?_append, hnone]
    simp [List.find?_cons]

theorem getFileDB_store_other (files : List FileMetadata) (md : FileMetadata)
    (k : String) (h : k ≠ md.file_id) :
    getFileDB (storeFileDB files md) k = getFileDB files k := by
  unfold storeFileDB getFileDB
  by_cases hany : files.any (fun f => f.file_id = md.file_id) = true
  · rw [if_pos hany]
    induction files with
    | nil => rfl
    | cons f rest ih =>
        by_cases hf : f.file_id = md.file_id
        · have h1 : (md.file_id = k) = False := by simp [Ne.symm h]
          have h2 : (f.file_id = k) = False := by simp [hf, Ne.symm h]
          by_cases hrest : rest.any (fun f => f.file_id = md.file_id) = true
          · simpa [List.find?_cons, hf, h1, h2] using ih hrest
          · have hmap : rest.map (fun f => if f.file_id = md.file_id then md else f)
                = rest := by
              conv_rhs => rw [← List.map_id rest]
              apply List.map_congr_left
              intro g hg
              have hg2 : ¬ g.file_id = md.file_id := by
                intro hc
                exact hrest (List.any_eq_true.mpr ⟨g, hg, by simpa using hc⟩)
              simp [hg2]
            simp [List.find?_cons, hf, h1, h2, hmap]
        · by_cases hrest : rest.any (fun f => f.file_id = md.file_id) = true
          · by_cases hfk : f.file_id = k
            · simp [List.find?_cons, hf, hfk, h]
            · simpa [List.find?_cons, hf, hfk] using ih hrest
          · simp [List.any_cons, hf, hrest] at hany
  · rw [if_neg hany, List.find?_append]
    have h2 : ([md].find? fun f => f.file_id = k) = none := by
      simp [List.find?_cons, Ne.symm h]
    rw [h2]
    cases hl : files.find? (fun f => f.file_id = k) <;> simp

/-- C8 (amended): `delete_file` soft-deletes the metadata — `is_deleted`
becomes true and no other metadata field changes — but it also removes the
file's entry from `file_manager.file_versions` (server.py lines 606-608), so
the version records are no longer listed; only the per-version content bytes
in `file_content` survive untouched. -/
theorem delete_file_effects (st : CoordState) (fid nid : String) (md : FileMetadata)
    (h : getFileDB st.db_files fid = some md) :
    ((delete_file st fid (some nid)).1).success = true ∧
    getFileDB ((delete_file st fid (some nid)).2).db_files fid
      = some { md with is_deleted := true } ∧
    ((delete_file st fid (some nid)).2).fm.file_versions.lookup fid = none ∧
    ((delete_file st fid (some nid)).2).fm.file_content = st.fm.file_content := by
  have hfid : md.file_id = fid := by
    have := List.find?_some h
    simpa using this
  unfold delete_file
  rw [h]
  refine ⟨rfl, ?_, ?_, rfl⟩
  · have hs := getFileDB_store_self st.db_files { md with is_deleted := true }
    simpa [hfid] using hs
  · exact lookup_filter_out _ _

theorem delete_file_effects_witness :
    ((delete_file c8Demo "f1" (some "n1")).1).success = true ∧
    getFileDB ((delete_file c8Demo "f1" (some "n1")).2).db_files "f1"
      = some { c8Md with is_deleted := true } ∧
    ((delete_file c8Demo "f1" (some "n1")).2).fm.file_versions.lookup "f1" = none ∧
    ((delete_file c8Demo "f1" (some "n1")).2).fm.file_content = c8Demo.fm.file_content :=
  delete_file_effects c8Demo "f1" "n1" c8Md (by decide)

/-- C8 counterexample: before `delete_file` the file's version entry is
listed by the file manager; after the call the listing is gone (server.py
lines 606-608 delete `file_versions[file_id]`), refuting "removes no
versions: every FileVersion ... still present and retrievable". -/
theorem delete_file_removes_version_listing_counterexample :
    c8Demo.fm.file_versions.lookup "f1" = some [⟨0, 1, "n1"⟩] ∧
    ((delete_file c8Demo "f1" (some "n1")).2).fm.file_versions.lookup "f1" = none ∧
    some [(⟨0, 1, "n1"⟩ : SimpleVersion)] ≠ (none : Option (List SimpleVersion)) := by
  decide

theorem fmCreateVersion_content_lt (st : SimpleFMState) (fid : String)
    (data : List Nat) (cb : String) (vid : Nat) (h : vid < st.next_vid) :
    fmGetVersionContent (fmCreateVersion st fid data cb).2 vid
      = fmGetVersionContent st vid := by
  have hne : (vid == st.next_vid) = false :=
    beq_eq_false_iff_ne.mpr (Nat.ne_of_lt h)
  simp [fmCreateVersion, fmGetVersionContent, List.lookup, hne]

theorem fmCreateVersion_content_self (st : SimpleFMState) (fid : String)
    (data : List Nat) (cb : String) :
    fmGetVersionContent (fmCreateVersion st fid data cb).2 st.next_vid = some data := by
  simp [fmCreateVersion, fmGetVersionContent, List.lookup]

theorem propagateNode_fm (storeOk : String → Bool) (md : FileMetadata)
    (data : List Nat) (n : String) (st : CoordState) (vid : Nat)
    (h : vid < st.fm.next_vid) :
    fmGetVersionContent (propagateNode storeOk md data n st).fm vid
        = fmGetVersionContent st.fm vid ∧
      st.fm.next_vid ≤ (propagateNode storeOk md data n st).fm.next_vid := by
  unfold propagateNode
  by_cases hok : storeOk n = true
  · simp only [hok, if_true, ite_true]
    exact ⟨fmCreateVersion_content_lt _ _ _ _ _ h, by simp [fmCreateVersion]⟩
  · simp only [Bool.not_eq_true] at hok
    simp [hok]

theorem propagateLoop_content (storeOk : String → Bool) (md : FileMetadata)
    (data : List Nat) :
    ∀ (nodes : List String) (st : CoordState) (vid : Nat), vid < st.fm.next_vid →
      fmGetVersionContent (propagateLoop storeOk md data nodes st).fm vid
          = fmGetVersionContent st.fm vid ∧
        st.fm.next_vid ≤ (propagateLoop storeOk md data nodes st).fm.next_vid := by
  intro nodes
  induction nodes with
  | nil => intro st vid h; exact ⟨rfl, le_refl _⟩
  | cons n rest ih =>
      intro st vid h
      unfold propagateLoop
      by_cases hn : n ≠ md.owner_node
      · rw [if_pos hn]
        have h1 := propagateNode_fm storeOk md data n st vid h
        have h2 := ih (propagateNode storeOk md data n st) vid (lt_of_lt_of_le h h1.2)
        exact ⟨h2.1.trans h1.1, le_trans h1.2 h2.2⟩
      · rw [if_neg hn]
        exact ih st vid h

theorem propagateNode_db_other (storeOk : String → Bool) (md : FileMetadata)
    (data : List Nat) (n : String) (st : CoordState) (k : String)
    (h : k ≠ md.file_id ++ "_replica_" ++ n) :
    getFileDB (propagateNode storeOk md data n st).db_files k
      = getFileDB st.db_files k := by
  unfold propagateNode
  by_cases hok : storeOk n = true
  · simp only [hok, if_true, ite_true]
    exact getFileDB_store_other _ _ _ h
  · simp only [Bool.not_eq_true] at hok
    simp [hok]

theorem propagateLoop_db_fresh (storeOk : String → Bool) (md : FileMetadata)
    (data : List Nat) :
    ∀ (nodes : List String) (st : CoordState) (k : String),
      (∀ p, k ≠ md.file_id ++ "_replica_" ++ p) →
      getFileDB (propagateLoop storeOk md data nodes st).db_files k
        = getFileDB st.db_files k := by
  intro nodes
  induction nodes with
  | nil => intro st k _; rfl
  | cons n rest ih =>
      intro st k hk
      unfold propagateLoop
      by_cases hn : n ≠ md.owner_node
      · rw [if_pos hn]
        rw [ih _ k hk, propagateNode_db_other storeOk md data n st k (hk n)]
      · rw [if_neg hn]
        exact ih st k hk

theorem self_ne_append_replica (s p : String) : s ≠ s ++ "_replica_" ++ p := by
  intro h
  have hlen := congrArg String.length h
  have h9 : "_replica_".length = 9 := rfl
  simp [String.length_append, h9] at hlen
  omega

/-- C9 (amended): the upload handler performs no hash validation — when the
declared `file_metadata.hash` differs from the SHA-256 of the joined chunk
bytes it silently replaces it with the computed value (server.py lines
461-464, "Allow empty hash for now, calculate it") and proceeds: whenever
the delta step returns, the upload answers `success`, a new version holding
the uploaded bytes is created, and the stored metadata carries the
recomputed hash.  No `BadRequest` rejection exists. -/
theorem upload_ignores_hash_mismatch (H : List Nat → String)
    (storeOk : String → Bool) (req : FileUploadRequest) (st : CoordState)
    (hmis : req.file_metadata.hash ≠ H (joinChunks req.chunks))
    (hde : ∃ d, create_content_delta H (uploadOldContent st req)
      (joinChunks req.chunks) req.file_metadata.file_id = .ok d) :
    ((upload_file H storeOk req st).1).status = "success" ∧
    ((upload_file H storeOk req st).1).version_id = some st.fm.next_vid ∧
    fmGetVersionContent ((upload_file H storeOk req st).2).fm st.fm.next_vid
      = some (joinChunks req.chunks) ∧
    getFileDB ((upload_file H storeOk req st).2).db_files req.file_metadata.file_id
      = some { req.file_metadata with
               hash := H (joinChunks req.chunks)
               vector_clock := (vcmIncrementClock st.vcm req.file_metadata.owner_node).1 } := by
  obtain ⟨d, hd⟩ := hde
  have hd' : create_content_delta H
      (uploadOldContent
        { st with vcm := (vcmIncrementClock st.vcm req.file_metadata.owner_node).2 } req)
      (joinChunks req.chunks) req.file_metadata.file_id = .ok d := hd
  have hmd2 : uploadMd2 H req st =
      { req.file_metadata with
        hash := H (joinChunks req.chunks)
        vector_clock := (vcmIncrementClock st.vcm req.file_metadata.owner_node).1 } := by
    simp only [uploadMd2]
    rw [if_pos (Ne.symm hmis)]
    rfl
  have hmd2fid : (uploadMd2 H req st).file_id = req.file_metadata.file_id := by
    rw [hmd2]
  simp only [upload_file]
  rw [hd']
  refine ⟨rfl, rfl, ?_, ?_⟩
  · show fmGetVersionContent
      (propagate storeOk (uploadMd2 H req st) (joinChunks req.chunks)
        (uploadStatePre H req st)).fm st.fm.next_vid = some (joinChunks req.chunks)
    unfold propagate
    have hb : st.fm.next_vid < (uploadStatePre H req st).fm.next_vid := by
      simp [uploadStatePre, fmCreateVersion]
    have hpres := propagateLoop_content storeOk (uploadMd2 H req st)
      (joinChunks req.chunks) (uploadStatePre H req st).online_nodes
      (uploadStatePre H req st) st.fm.next_vid hb
    rw [hpres.1]
    exact fmCreateVersion_content_self st.fm _ _ _
  · show getFileDB
      (propagate storeOk (uploadMd2 H req st) (joinChunks req.chunks)
        (uploadStatePre H req st)).db_files req.file_metadata.file_id
      = some { req.file_metadata with
               hash := H (joinChunks req.chunks)
               vector_clock := (vcmIncrementClock st.vcm req.file_metadata.owner_node).1 }
    unfold propagate
    have hfresh : ∀ p, req.file_metadata.file_id
        ≠ (uploadMd2 H req st).file_id ++ "_replica_" ++ p := by
      intro p
      rw [hmd2fid]
      exact self_ne_append_replica _ p
    rw [propagateLoop_db_fresh _ _ _ _ _ _ hfresh]
    have hself := getFileDB_store_self st.db_files (uploadMd2 H req st)
    rw [hmd2fid] at hself
    rw [show (uploadStatePre H req st).db_files
        = storeFileDB st.db_files (uploadMd2 H req st) from rfl, hself, hmd2]

theorem upload_ignores_hash_mismatch_witness :
    ((upload_file hashStub (fun _ => true) c9Req c9St).1).status = "success" ∧
    ((upload_file hashStub (fun _ => true) c9Req c9St).1).version_id
      = some c9St.fm.next_vid ∧
    fmGetVersionContent ((upload_file hashStub (fun _ => true) c9Req c9St).2).fm
      c9St.fm.next_vid = some (joinChunks c9Req.chunks) ∧
    getFileDB ((upload_file hashStub (fun _ => true) c9Req c9St).2).db_files
      c9Req.file_metadata.file_id
      = some { c9Req.file_metadata with
               hash := hashStub (joinChunks c9Req.chunks)
               vector_clock :=
                 (vcmIncrementClock c9St.vcm c9Req.file_metadata.owner_node).1 } :=
  upload_ignores_hash_mismatch hashStub (fun _ => true) c9Req c9St (by decide)
    (by
      cases h : create_content_delta hashStub (uploadOldContent c9St c9Req)
          (joinChunks c9Req.chunks) c9Req.file_metadata.file_id with
      | ok d => exact ⟨d, rfl⟩
      | error e =>
          have hok : (create_content_delta hashStub (uploadOldContent c9St c9Req)
              (joinChunks c9Req.chunks) c9Req.file_metadata.file_id).isOk = true := by
            decide
          rw [h] at hok
          simp [Except.isOk, Except.toBool] at hok)

/-- C9 counterexample: an upload whose declared hash (`"deadbeef"`) differs
from the SHA-256 of its chunk bytes is not rejected: the handler answers
`success` and a version is created. -/
theorem upload_hash_mismatch_succeeds_counterexample :
    ((upload_file hashStub (fun _ => true) c9Req c9St).1).status = "success" ∧
    ((upload_file hashStub (fun _ => true) c9Req c9St).1).status ≠ "error" ∧
    ((upload_file hashStub (fun _ => true) c9Req c9St).2).fm.file_versions.lookup "f2"
      = some [⟨0, 0, "n1"⟩] := by decide

theorem lookup_setAssoc_self {α : Type} (l : List (String × α)) (k : String) (v : α) :
    (setAssoc l k v).lookup k = some v := by
  induction l with
  | nil => simp [setAssoc, List.lookup]
  | cons p rest ih =>
      obtain ⟨a, b⟩ := p
      by_cases h : a = k
      · simp [setAssoc, h, List.lookup]
      · have hba : (k == a) = false := beq_eq_false_iff_ne.mpr fun hk => h hk.symm
        simp [setAssoc, h, List.lookup, hba, ih]

theorem lookup_setAssoc_other {α : Type} (l : List (String × α)) (k : String) (v : α)
    (k' : String) (h : k' ≠ k) :
    (setAssoc l k v).lookup k' = l.lookup k' := by
  induction l with
  | nil => simp [setAssoc, List.lookup, beq_eq_false_iff_ne.mpr h]
  | cons p rest ih =>
      obtain ⟨a, b⟩ := p
      by_cases ha : a = k
      · have h1 : (k' == k) = false := beq_eq_false_iff_ne.mpr h
        have h2 : (k' == a) = false := beq_eq_false_iff_ne.mpr (by rw [ha]; exact h)
        simp [setAssoc, ha, List.lookup, h1, h2]
      · by_cases hk' : k' = a
        · simp [setAssoc, ha, List.lookup, hk']
        · have h2 : (k' == a) = false := beq_eq_false_iff_ne.mpr hk'
          simp [setAssoc, ha, List.lookup, h2, ih]

theorem lookup_append {α : Type} (l₁ l₂ : List (String × α)) (k : String) :
    (l₁ ++ l₂).lookup k =
      match l₁.lookup k with
      | some v => some v
      | none => l₂.lookup k := by
  induction l₁ with
  | nil => simp [List.lookup]
  | cons p rest ih =>
      obtain ⟨a, b⟩ := p
      by_cases h : k = a
      · simp [List.lookup, h]
      · have hba : (k == a) = false := beq_eq_false_iff_ne.mpr h
        simp [List.lookup, hba, ih]

theorem fmCreate_versions_self (st : SimpleFMState) (fid : String) (data : List Nat)
    (cb : String) :
    (fmCreateVersion st fid data cb).2.file_versions.lookup fid
      = some ((st.file_versions.lookup fid).getD []
          ++ [⟨st.next_vid, data.length, cb⟩]) := by
  unfold fmCreateVersion
  cases hl : st.file_versions.lookup fid with
  | some lst => simp [hl, lookup_setAssoc_self]
  | none =>
      simp only [hl]
      rw [lookup_append, hl]
      simp [List.lookup]

theorem fmCreate_versions_other (st : SimpleFMState) (fid : String) (data : List Nat)
    (cb : String) (fid' : String) (h : fid' ≠ fid) :
    (fmCreateVersion st fid data cb).2.file_versions.lookup fid'
      = st.file_versions.lookup fid' := by
  unfold fmCreateVersion
  cases hl : st.file_versions.lookup fid with
  | some lst => simp [hl, lookup_setAssoc_other _ _ _ _ h]
  | none =>
      simp only [hl]
      rw [lookup_append]
      cases hl' : st.file_versions.lookup fid' with
      | some v => simp
      | none => simp [List.lookup, beq_eq_false_iff_ne.mpr h]

theorem fmCreate_preserves_hasReplica (st : SimpleFMState) (fid' : String)
    (data' : List Nat) (cb : String) (rid : String) (data : List Nat)
    (h : fmHasReplica st rid data) :
    fmHasReplica (fmCreateVersion st fid' data' cb).2 rid data := by
  obtain ⟨vid, lst, hvid, hlk, ⟨e, he, hev⟩, hct⟩ := h
  by_cases hf : fid' = rid
  · refine ⟨vid, (st.file_versions.lookup fid').getD []
      ++ [⟨st.next_vid, data'.length, cb⟩], ?_, ?_, ⟨e, ?_, hev⟩, ?_⟩
    · simp [fmCreateVersion]; omega
    · rw [← hf]
      exact fmCreate_versions_self st fid' data' cb
    · rw [hf, hlk]
      exact List.mem_append_left _ he
    · have h2 := fmCreateVersion_content_lt st fid' data' cb vid hvid
      simp only [fmGetVersionContent] at h2
      rw [h2]
      exact hct
  · refine ⟨vid, lst, ?_, ?_, ⟨e, he, hev⟩, ?_⟩
    · simp [fmCreateVersion]; omega
    · rw [fmCreate_versions_other st fid' data' cb rid fun hc => hf hc.symm]
      exact hlk
    · have h2 := fmCreateVersion_content_lt st fid' data' cb vid hvid
      simp only [fmGetVersionContent] at h2
      rw [h2]
      exact hct

theorem append_replica_inj (s p q : String)
    (h : s ++ "_replica_" ++ p = s ++ "_replica_" ++ q) : p = q := by
  obtain ⟨pd⟩ := p
  obtain ⟨qd⟩ := q
  have hd := congrArg String.data h
  simp only [String.data_append] at hd
  have hpq : pd = qd := List.append_cancel_left hd
  rw [hpq]

theorem propagateNode_preserves_replica (storeOk : String → Bool) (md : FileMetadata)
    (data : List Nat) (n : String) (st : CoordState) (p : String)
    (hdb : getFileDB st.db_files (md.file_id ++ "_replica_" ++ p)
      = some (replicaMetadata md p))
    (hfm : fmHasReplica st.fm (md.file_id ++ "_replica_" ++ p) data) :
    getFileDB (propagateNode storeOk md data n st).db_files
        (md.file_id ++ "_replica_" ++ p) = some (replicaMetadata md p) ∧
      fmHasReplica (propagateNode storeOk md data n st).fm
        (md.file_id ++ "_replica_" ++ p) data := by
  unfold propagateNode
  by_cases hok : storeOk n = true
  · simp only [hok, if_true, ite_true]
    constructor
    · by_cases heq : md.file_id ++ "_replica_" ++ p = md.file_id ++ "_replica_" ++ n
      · have hpn : p = n := append_replica_inj _ _ _ heq
        subst hpn
        have hs := getFileDB_store_self st.db_files (replicaMetadata md p)
        simpa [replicaMetadata] using hs
      · rw [getFileDB_store_other st.db_files (replicaMetadata md n) _ heq]
        exact hdb
    · exact fmCreate_preserves_hasReplica st.fm _ data n _ data hfm
  · simp only [Bool.not_eq_true] at hok
    simp only [hok, Bool.false_eq_true, if_false, ite_false]
    exact ⟨hdb, hfm⟩

theorem propagateLoop_preserves_replica (storeOk : String → Bool) (md : FileMetadata)
    (data : List Nat) :
    ∀ (nodes : List String) (st : CoordState) (p : String),
      getFileDB st.db_files (md.file_id ++ "_replica_" ++ p)
        = some (replicaMetadata md p) →
      fmHasReplica st.fm (md.file_id ++ "_replica_" ++ p) data →
      getFileDB (propagateLoop storeOk md data nodes st).db_files
          (md.file_id ++ "_replica_" ++ p) = some (replicaMetadata md p) ∧
        fmHasReplica (propagateLoop storeOk md data nodes st).fm
          (md.file_id ++ "_replica_" ++ p) data := by
  intro nodes
  induction nodes with
  | nil => intro st p hdb hfm; exact ⟨hdb, hfm⟩
  | cons n rest ih =>
      intro st p hdb hfm
      unfold propagateLoop
      by_cases hn : n ≠ md.owner_node
      · rw [if_pos hn]
        have hstep := propagateNode_preserves_replica storeOk md data n st p hdb hfm
        exact ih _ p hstep.1 hstep.2
      · rw [if_neg hn]
        exact ih st p hdb hfm

theorem propagateNode_creates_replica (storeOk : String → Bool) (md : FileMetadata)
    (data : List Nat) (p : String) (st : CoordState) (hok : storeOk p = true) :
    getFileDB (propagateNode storeOk md data p st).db_files
        (md.file_id ++ "_replica_" ++ p) = some (replicaMetadata md p) ∧
      fmHasReplica (propagateNode storeOk md data p st).fm
        (md.file_id ++ "_replica_" ++ p) data := by
  unfold propagateNode
  simp only [hok, if_true, ite_true]
  constructor
  · have hs := getFileDB_store_self st.db_files (replicaMetadata md p)
    simpa [replicaMetadata] using hs
  · refine ⟨st.fm.next_vid,
      (st.fm.file_versions.lookup (md.file_id ++ "_replica_" ++ p)).getD []
        ++ [⟨st.fm.next_vid, data.length, p⟩], ?_, ?_,
      ⟨⟨st.fm.next_vid, data.length, p⟩, List.mem_append_right _ (by simp), rfl⟩, ?_⟩
    · simp [fmCreateVersion]
    · have := fmCreate_versions_self st.fm (md.file_id ++ "_replica_" ++ p) data p
      simpa [replicaMetadata] using this
    · simp [fmCreateVersion, List.lookup]

theorem propagateLoop_replica (storeOk : String → Bool) (md : FileMetadata)
    (data : List Nat) :
    ∀ (nodes : List String) (st : CoordState) (p : String),
      p ∈ nodes → p ≠ md.owner_node → storeOk p = true →
      getFileDB (propagateLoop storeOk md data nodes st).db_files
          (md.file_id ++ "_replica_" ++ p) = some (replicaMetadata md p) ∧
        fmHasReplica (propagateLoop storeOk md data nodes st).fm
          (md.file_id ++ "_replica_" ++ p) data := by
  intro nodes
  induction nodes with
  | nil => intro st p hp; exact absurd hp (List.not_mem_nil p)
  | cons n rest ih =>
      intro st p hp hpo hok
      unfold propagateLoop
      by_cases hpr : p ∈ rest
      · by_cases hn : n ≠ md.owner_node
        · rw [if_pos hn]
          exact ih _ p hpr hpo hok
        · rw [if_neg hn]
          exact ih st p hpr hpo hok
      · have hpn : p = n := by
          rcases List.mem_cons.mp hp with h | h
          · exact h
          · exact absurd h hpr
        subst hpn
        rw [if_pos hpo]
        have hstep := propagateNode_creates_replica storeOk md data p st hok
        exact propagateLoop_preserves_replica storeOk md data rest _ p hstep.1 hstep.2

/-- C6 (amended): for every online peer other than the owner whose replica
store succeeds, replication persists a replica FileMetadata whose `file_id`
is `"<orig>_replica_<peer>"` (underscores, server.py line 1117 — not the
claimed `"<orig>::replica::<peer>"`), owned by the peer, at path
`"/<peer>/replicas/<name>"`, with the original's hash and size, and records
a corresponding file-manager version holding the same bytes. -/
theorem propagate_replica_effects (storeOk : String → Bool) (md : FileMetadata)
    (data : List Nat) (st : CoordState) (p : String)
    (hp : p ∈ st.online_nodes) (hpo : p ≠ md.owner_node) (hok : storeOk p = true) :
    getFileDB (propagate storeOk md data st).db_files (md.file_id ++ "_replica_" ++ p)
      = some (replicaMetadata md p) ∧
    (replicaMetadata md p).file_id = md.file_id ++ "_replica_" ++ p ∧
    (replicaMetadata md p).owner_node = p ∧
    (replicaMetadata md p).path = "/" ++ p ++ "/replicas/" ++ md.name ∧
    (replicaMetadata md p).hash = md.hash ∧
    (replicaMetadata md p).size = md.size ∧
    fmHasReplica (propagate storeOk md data st).fm
      (md.file_id ++ "_replica_" ++ p) data := by
  have h := propagateLoop_replica storeOk md data st.online_nodes st p hp hpo hok
  exact ⟨h.1, rfl, rfl, rfl, rfl, rfl, h.2⟩

theorem propagate_replica_effects_witness :
    getFileDB (propagate (fun _ => true) c8Md [7] c6St).db_files
        (c8Md.file_id ++ "_replica_" ++ "n2") = some (replicaMetadata c8Md "n2") ∧
    (replicaMetadata c8Md "n2").file_id = c8Md.file_id ++ "_replica_" ++ "n2" ∧
    (replicaMetadata c8Md "n2").owner_node = "n2" ∧
    (replicaMetadata c8Md "n2").path = "/" ++ "n2" ++ "/replicas/" ++ c8Md.name ∧
    (replicaMetadata c8Md "n2").hash = c8Md.hash ∧
    (replicaMetadata c8Md "n2").size = c8Md.size ∧
    fmHasReplica (propagate (fun _ => true) c8Md [7] c6St).fm
      (c8Md.file_id ++ "_replica_" ++ "n2") [7] :=
  propagate_replica_effects (fun _ => true) c8Md [7] c6St "n2" (by decide) (by decide)
    rfl

/-- C6 counterexample: the replica id uses `_replica_` as separator, not the
claimed `::replica::` — after replicating `f1` to peer `n2` the database has
`"f1_replica_n2"` and nothing under `"f1::replica::n2"`. -/
theorem replica_id_separator_counterexample :
    getFileDB (propagate (fun _ => true) c8Md [7] c6St).db_files "f1_replica_n2"
      = some (replicaMetadata c8Md "n2") ∧
    getFileDB (propagate (fun _ => true) c8Md [7] c6St).db_files "f1::replica::n2"
      = none ∧
    ("f1_replica_n2" : String) ≠ "f1::replica::n2" := by decide

theorem propagateNode_events (storeOk : String → Bool) (md : FileMetadata)
    (data : List Nat) (n : String) (st : CoordState) :
    (propagateNode storeOk md data n st).events
      = st.events ++ nodeEventList storeOk md data n st.fm.next_vid := by
  unfold propagateNode nodeEventList
  by_cases hok : storeOk n = true
  · simp [hok, List.append_assoc]
    rfl
  · simp only [Bool.not_eq_true] at hok
    simp [hok, List.append_assoc]

theorem nodeEventList_summary (storeOk : String → Bool) (md : FileMetadata)
    (data : List Nat) (n : String) (vid : Nat) :
    (nodeEventList storeOk md data n vid).map eventSummary
      = expectedPeerTrace md data storeOk n := by
  by_cases hok : storeOk n = true
  · simp [nodeEventList, expectedPeerTrace, eventSummary, progressEvent,
      completedEvent, hok]
  · simp only [Bool.not_eq_true] at hok
    simp [nodeEventList, expectedPeerTrace, eventSummary, progressEvent,
      syncErrorEvent, hok]

theorem propagateLoop_events (storeOk : String → Bool) (md : FileMetadata)
    (data : List Nat) :
    ∀ (nodes : List String) (st : CoordState), ∃ suffix,
      (propagateLoop storeOk md data nodes st).events = st.events ++ suffix ∧
      suffix.map eventSummary
        = ((nodes.filter fun n => n ≠ md.owner_node).map
            (expectedPeerTrace md data storeOk)).flatten := by
  intro nodes
  induction nodes with
  | nil => intro st; exact ⟨[], by simp [propagateLoop], by simp⟩
  | cons n rest ih =>
      intro st
      unfold propagateLoop
      by_cases hn : n ≠ md.owner_node
      · rw [if_pos hn]
        obtain ⟨suffix, h1, h2⟩ := ih (propagateNode storeOk md data n st)
        refine ⟨nodeEventList storeOk md data n st.fm.next_vid ++ suffix, ?_, ?_⟩
        · rw [h1, propagateNode_events, List.append_assoc]
        · rw [List.map_append, h2, nodeEventList_summary]
          simp [List.filter_cons, hn]
      · rw [if_neg hn]
        obtain ⟨suffix, h1, h2⟩ := ih st
        refine ⟨suffix, h1, ?_⟩
        rw [h2]
        simp [List.filter_cons, hn]

theorem expectedPeerTrace_congr (md : FileMetadata) (data : List Nat)
    (ok1 ok2 : String → Bool) (p : String) (h : ok1 p = ok2 p) :
    expectedPeerTrace md data ok1 p = expectedPeerTrace md data ok2 p := by
  unfold expectedPeerTrace
  rw [h]

theorem expectedPeerTrace_filter_ne (md : FileMetadata) (data : List Nat)
    (ok : String → Bool) (p q : String) (h : p ≠ q) :
    (expectedPeerTrace md data ok p).filter (fun s => s.target_node = some q) = [] := by
  by_cases hok : ok p = true
  · simp [expectedPeerTrace, hok, h]
  · simp only [Bool.not_eq_true] at hok
    simp [expectedPeerTrace, hok, h]

theorem expected_filter_flatten (md : FileMetadata) (data : List Nat)
    (ok1 ok2 : String → Bool) (q : String) (hq : ok1 q = ok2 q) :
    ∀ peers : List String,
      ((peers.map (expectedPeerTrace md data ok1)).flatten).filter
          (fun s => s.target_node = some q)
        = ((peers.map (expectedPeerTrace md data ok2)).flatten).filter
          (fun s => s.target_node = some q) := by
  intro peers
  induction peers with
  | nil => rfl
  | cons p rest ih =>
      simp only [List.map_cons, List.flatten_cons, List.filter_append]
      rw [ih]
      congr 1
      by_cases hpq : p = q
      · subst hpq
        rw [expectedPeerTrace_congr md data ok1 ok2 p hq]
      · rw [expectedPeerTrace_filter_ne md data ok1 p q hpq,
          expectedPeerTrace_filter_ne md data ok2 p q hpq]

/-- C7: per online peer other than the owner, and in this order, the
replication loop emits one started event at progress 0
(`file_sync_progress` with action `sync_started`), three progress events at
25, 50, 75 (action `syncing`), then one `sync_completed` carrying the
transferred byte count and the replica id; a peer whose replica store fails
gets `sync_error` after its progress events, and the event sequence of every
other peer is unchanged by which peers fail. -/
theorem propagate_event_sequences (storeOk : String → Bool) (md : FileMetadata)
    (data : List Nat) (st : CoordState) :
    ((((propagate storeOk md data st).events).drop st.events.length).map eventSummary
      = ((st.online_nodes.filter fun n => n ≠ md.owner_node).map
          (expectedPeerTrace md data storeOk)).flatten) ∧
    (∀ (ok1 ok2 : String → Bool) (q : String), ok1 q = ok2 q →
      ((((propagate ok1 md data st).events).drop st.events.length).map
          eventSummary).filter (fun s => s.target_node = some q)
        = ((((propagate ok2 md data st).events).drop st.events.length).map
            eventSummary).filter (fun s => s.target_node = some q)) := by
  constructor
  · obtain ⟨suffix, h1, h2⟩ := propagateLoop_events storeOk md data st.online_nodes st
    unfold propagate
    rw [h1, List.drop_left, h2]
  · intro ok1 ok2 q hq
    obtain ⟨s1, h11, h12⟩ := propagateLoop_events ok1 md data st.online_nodes st
    obtain ⟨s2, h21, h22⟩ := propagateLoop_events ok2 md data st.online_nodes st
    unfold propagate
    rw [h11, List.drop_left, h12, h21, List.drop_left, h22]
    exact expected_filter_flatten md data ok1 ok2 q hq _

theorem propagate_event_sequences_witness :
    ((((propagate (fun _ => true) c8Md [7] c6St).events).drop
        c6St.events.length).map eventSummary
      = ((c6St.online_nodes.filter fun n => n ≠ c8Md.owner_node).map
          (expectedPeerTrace c8Md [7] (fun _ => true))).flatten) ∧
    (((((propagate (fun _ => true) c8Md [7] c6St).events).drop
        c6St.events.length).map eventSummary).filter
          (fun s => s.target_node = some "n2")
      = ((((propagate (fun s => s == "n2") c8Md [7] c6St).events).drop
          c6St.events.length).map eventSummary).filter
            (fun s => s.target_node = some "n2")) := by
  have h := propagate_event_sequences (fun _ => true) c8Md [7] c6St
  exact ⟨h.1, h.2 (fun _ => true) (fun s => s == "n2") "n2" (by decide)⟩

end FileSync

